import Mathlib

/-!
Verification of the OpenNof1 market-data core: the kline cache
(backend/market/data_cache.py), the WebSocket ingestor
(backend/market/websocket_client.py) and the multi-timeframe analysis
tool (backend/agent/tools/analysis_tools.py), shallowly embedded in Lean.
Prices and indicator values are modelled as rationals; epoch-millisecond
times as integers.
-/

/-- Embedding of the Kline dataclass from backend/market/types.py. -/
structure Kline where
  symbol : String
  interval : String
  open_time : Int
  close_time : Int
  open_price : ℚ
  high_price : ℚ
  low_price : ℚ
  close_price : ℚ
  volume : ℚ
  quote_volume : ℚ
  trades_count : Int
  taker_buy_base_volume : ℚ
  taker_buy_quote_volume : ℚ
  is_final : Bool
deriving DecidableEq

/-- Helper building a kline whose only varying fields are open_time,
close_price and is_final; the other fields take fixed values. -/
def mkKline (t : Int) (price : ℚ) (fin : Bool) : Kline :=
  { symbol := "BTCUSDT", interval := "1h", open_time := t, close_time := t + 1,
    open_price := price, high_price := price, low_price := price,
    close_price := price, volume := 1, quote_volume := 1, trades_count := 1,
    taker_buy_base_volume := 1, taker_buy_quote_volume := 1, is_final := fin }

/-- Embedding of a Python collections.deque append with maxlen: the new
element goes to the right and elements are dropped from the left until the
length is at most maxlen. -/
def pushBounded (maxlen : Nat) (s : List Kline) (k : Kline) : List Kline :=
  let s2 := s ++ [k]
  s2.drop (s2.length - maxlen)

/-- Embedding of KlineCache.add_kline (backend/market/data_cache.py lines
46-54) restricted to one (symbol, timeframe) series: if the series is
non-empty and the last entry has the same open_time, the last entry is
replaced in place; otherwise the kline is appended to the bounded deque. -/
def add_kline (maxlen : Nat) (s : List Kline) (k : Kline) : List Kline :=
  match s.getLast? with
  | some last =>
      if last.open_time = k.open_time then s.dropLast ++ [k]
      else pushBounded maxlen s k
  | none => pushBounded maxlen s k

/-- Series obtained by upserting a list of klines, oldest first, into an
initially empty bounded series. -/
def addAll (maxlen : Nat) (ks : List Kline) : List Kline :=
  ks.foldl (add_kline maxlen) []

/-- Cache model: symbol to timeframe to series association structure,
mirroring the nested dicts of KlineCache.cache. -/
abbrev Cache := List (String × List (String × List Kline))

/-- Lookup of the series stored for a (symbol, timeframe) pair, mirroring
the membership tests in KlineCache.get_klines line 59. -/
def lookupSeries (c : Cache) (symbol timeframe : String) : Option (List Kline) :=
  match List.lookup symbol c with
  | none => none
  | some tfs => List.lookup timeframe tfs

/-- Embedding of KlineCache.get_klines (backend/market/data_cache.py lines
56-67): a missing series yields the empty list; the list is truncated to
the last entries only when the Python condition "limit and limit > 0"
holds, i.e. limit is not None, non-zero and positive. -/
def get_klines (c : Cache) (symbol timeframe : String) (limit : Option Int) : List Kline :=
  match lookupSeries c symbol timeframe with
  | none => []
  | some klines =>
      match limit with
      | none => klines
      | some l => if l ≠ 0 ∧ 0 < l then klines.drop (klines.length - l.toNat) else klines

/-- Embedding of KlineCache._initialize_cache (backend/market/data_cache.py
lines 25-33): an empty bounded series for every configured symbol and
timeframe. -/
def initCache (symbols timeframes : List String) : Cache :=
  symbols.map (fun s => (s, timeframes.map (fun tf => (tf, ([] : List Kline)))))

theorem length_pushBounded (N : ℕ) (s : List Kline) (k : Kline) :
    (pushBounded N s k).length = min (s.length + 1) N := by
  simp [pushBounded]
  omega

theorem pushBounded_of_lt {N : ℕ} {s : List Kline} (k : Kline) (h : s.length < N) :
    pushBounded N s k = s ++ [k] := by
  have h0 : s.length + 1 - N = 0 := by omega
  simp [pushBounded, h0]

theorem pushBounded_of_eq {N : ℕ} {s : List Kline} (k : Kline) (h : s.length = N)
    (hN : 0 < N) : pushBounded N s k = s.tail ++ [k] := by
  have h1 : s.length + 1 - N = 1 := by omega
  simp only [pushBounded, List.length_append, List.length_singleton]
  rw [h1]
  cases s with
  | nil =>
      simp at h
      omega
  | cons a t => simp

theorem add_kline_length_le (N : ℕ) (s : List Kline) (k : Kline) (h : s.length ≤ N) :
    (add_kline N s k).length ≤ N := by
  rcases hs : s.getLast? with _ | last
  · simp [add_kline, hs, length_pushBounded]
  · by_cases he : last.open_time = k.open_time
    · have hne : s ≠ [] := by
        intro h0
        subst h0
        simp at hs
      have hpos : 0 < s.length := List.length_pos.mpr hne
      simp [add_kline, hs, he, List.length_dropLast]
      omega
    · simp [add_kline, hs, he, length_pushBounded]

theorem foldl_add_kline_length_le (N : ℕ) (ks : List Kline) :
    ∀ s : List Kline, s.length ≤ N → (ks.foldl (add_kline N) s).length ≤ N := by
  induction ks with
  | nil =>
      intro s h
      simpa using h
  | cons k rest ih =>
      intro s h
      simpa using ih _ (add_kline_length_le N s k h)

theorem pairwise_pushBounded {R : Kline → Kline → Prop} {N : ℕ} {s : List Kline} {k : Kline}
    (h : (s ++ [k]).Pairwise R) : (pushBounded N s k).Pairwise R := h.drop

theorem mem_pushBounded {N : ℕ} {s : List Kline} {k x : Kline}
    (h : x ∈ pushBounded N s k) : x ∈ s ++ [k] := List.mem_of_mem_drop h

theorem add_kline_sorted (N : ℕ) (s : List Kline) (k : Kline)
    (hsort : s.Pairwise (fun a b => a.open_time < b.open_time))
    (hub : ∀ x ∈ s, x.open_time ≤ k.open_time) :
    (add_kline N s k).Pairwise (fun a b => a.open_time < b.open_time) ∧
    ∀ x ∈ add_kline N s k, x.open_time ≤ k.open_time := by
  rcases hs : s.getLast? with _ | last
  · have hnil : s = [] := by simpa using hs
    subst hnil
    have h1 : (([] : List Kline) ++ [k]).Pairwise (fun a b => a.open_time < b.open_time) := by
      simp
    refine ⟨?_, ?_⟩
    · simpa [add_kline] using pairwise_pushBounded h1
    · intro x hx
      have hx2 : x ∈ ([] : List Kline) ++ [k] := mem_pushBounded (by simpa [add_kline] using hx)
      simp at hx2
      simp [hx2]
  · obtain ⟨s0, rfl⟩ := List.getLast?_eq_some_iff.mp hs
    have hlast : last.open_time ≤ k.open_time := hub last (by simp)
    have hs0 : ∀ x ∈ s0, x.open_time < last.open_time := by
      intro x hx
      exact (List.pairwise_append.mp hsort).2.2 x hx last (by simp)
    by_cases he : last.open_time = k.open_time
    · have hdef : add_kline N (s0 ++ [last]) k = s0 ++ [k] := by
        simp [add_kline, hs, he, List.dropLast_concat]
      rw [hdef]
      refine ⟨?_, ?_⟩
      · refine List.pairwise_append.mpr ⟨(List.pairwise_append.mp hsort).1, by simp, ?_⟩
        intro a ha b hb
        simp at hb
        subst hb
        exact he ▸ hs0 a ha
      · intro x hx
        rcases List.mem_append.mp hx with h1 | h1
        · exact le_of_lt (he ▸ hs0 x h1)
        · simp at h1
          subst h1
          exact le_refl _
    · have hlt : last.open_time < k.open_time := lt_of_le_of_ne hlast he
      have hall : ∀ x ∈ s0 ++ [last], x.open_time < k.open_time := by
        intro x hx
        rcases List.mem_append.mp hx with h1 | h1
        · exact lt_trans (hs0 x h1) hlt
        · simp at h1
          subst h1
          exact hlt
      have hp : ((s0 ++ [last]) ++ [k]).Pairwise (fun a b => a.open_time < b.open_time) := by
        refine List.pairwise_append.mpr ⟨hsort, by simp, ?_⟩
        intro a ha b hb
        simp at hb
        subst hb
        exact hall a ha
      have hdef : add_kline N (s0 ++ [last]) k = pushBounded N (s0 ++ [last]) k := by
        simp [add_kline, hs, he]
      rw [hdef]
      refine ⟨pairwise_pushBounded hp, ?_⟩
      intro x hx
      rcases List.mem_append.mp (mem_pushBounded hx) with h1 | h1
      · exact le_of_lt (hall x h1)
      · simp at h1
        subst h1
        exact le_refl _

theorem foldl_add_kline_sorted (N : ℕ) (ks : List Kline) :
    ∀ s : List Kline,
      s.Pairwise (fun a b => a.open_time < b.open_time) →
      (∀ x ∈ s, ∀ j ∈ ks, x.open_time ≤ j.open_time) →
      ks.Pairwise (fun a b => a.open_time ≤ b.open_time) →
      (ks.foldl (add_kline N) s).Pairwise (fun a b => a.open_time < b.open_time) := by
  induction ks with
  | nil =>
      intro s hs _ _
      simpa using hs
  | cons k rest ih =>
      intro s hs hub hmono
      simp only [List.foldl_cons]
      obtain ⟨h1, h2⟩ := add_kline_sorted N s k hs (fun x hx => hub x hx k (by simp))
      refine ih _ h1 ?_ (List.pairwise_cons.mp hmono).2
      intro x hx j hj
      exact le_trans (h2 x hx) ((List.pairwise_cons.mp hmono).1 j hj)

/-- Claim C1, counterexample: upserting klines with open_times 5, 7 and then 5
again (a duplicate of an already-superseded, non-last entry) does not reject
the duplicate; add_kline compares only the last entry, so the duplicate is
appended and the series ends with two entries of open_time 5, refuting the
claimed uniqueness invariant. -/
theorem C1_counterexample :
    ¬ (addAll 100 [mkKline 5 1 true, mkKline 7 1 true, mkKline 5 2 false]).Pairwise
        (fun a b => a.open_time ≠ b.open_time) ∧
    ((addAll 100 [mkKline 5 1 true, mkKline 7 1 true, mkKline 5 2 false]).filter
        (fun x => decide (x.open_time = 5))).length = 2 := by
  decide

/-- Claim C1, amended: for every sequence of add_kline upserts the series
length never exceeds the capacity N, and provided the upserts arrive with
non-decreasing open_times (in stream order), the resulting series is strictly
increasing in open_time, hence never contains two entries with equal
open_time. An out-of-order duplicate of a non-last entry is appended, not
rejected. -/
theorem C1_capacity_and_inorder_uniqueness (N : ℕ) (ks : List Kline)
    (hmono : ks.Pairwise (fun a b => a.open_time ≤ b.open_time)) :
    (addAll N ks).length ≤ N ∧
    (addAll N ks).Pairwise (fun a b => a.open_time < b.open_time) :=
  ⟨foldl_add_kline_length_le N ks [] (by simp),
   foldl_add_kline_sorted N ks [] (by simp) (by simp) hmono⟩

/-- Witness for the amended claim C1 at capacity 3 with four in-order
upserts. -/
theorem C1_capacity_and_inorder_uniqueness_witness :
    (addAll 3 [mkKline 1 1 true, mkKline 2 1 true, mkKline 3 1 true,
        mkKline 4 1 true]).length ≤ 3 ∧
    (addAll 3 [mkKline 1 1 true, mkKline 2 1 true, mkKline 3 1 true,
        mkKline 4 1 true]).Pairwise (fun a b => a.open_time < b.open_time) :=
  C1_capacity_and_inorder_uniqueness 3
    [mkKline 1 1 true, mkKline 2 1 true, mkKline 3 1 true, mkKline 4 1 true]
    (by decide)

/-- Claim C2: add_kline replaces the last entry in place when its open_time
matches the incoming kline, otherwise appends (evicting the oldest entry
when the capacity is exceeded); upserting open_times 1, 2, 3, 4 at capacity
3 leaves entries 2, 3, 4 in order, and a provisional candle at open_time 5
followed by a final one at open_time 5 leaves exactly the final entry. -/
theorem C2_upsert_correctness (N : ℕ) (s : List Kline) (k : Kline) :
    (∀ last, s.getLast? = some last → last.open_time = k.open_time →
      add_kline N s k = s.dropLast ++ [k]) ∧
    ((∀ last, s.getLast? = some last → last.open_time ≠ k.open_time) →
      s.length < N → add_kline N s k = s ++ [k]) ∧
    ((∀ last, s.getLast? = some last → last.open_time ≠ k.open_time) →
      s.length = N → 0 < N → add_kline N s k = s.tail ++ [k]) ∧
    (addAll 3 [mkKline 1 1 true, mkKline 2 1 true, mkKline 3 1 true,
        mkKline 4 1 true]).map Kline.open_time = [2, 3, 4] ∧
    addAll 100 [mkKline 5 1 false, mkKline 5 2 true] = [mkKline 5 2 true] := by
  refine ⟨?_, ?_, ?_, by decide, by decide⟩
  · intro last hl he
    simp [add_kline, hl, he]
  · intro hne hlt
    rcases hs : s.getLast? with _ | last
    · simp [add_kline, hs, pushBounded_of_lt k hlt]
    · simp [add_kline, hs, hne last hs, pushBounded_of_lt k hlt]
  · intro hne heq hN
    rcases hs : s.getLast? with _ | last
    · simp [add_kline, hs, pushBounded_of_eq k heq hN]
    · simp [add_kline, hs, hne last hs, pushBounded_of_eq k heq hN]

/-- Witness for claim C2: the replace branch, the plain append branch and
the evicting append branch at concrete inputs. -/
theorem C2_upsert_correctness_witness :
    add_kline 3 [mkKline 1 1 true] (mkKline 1 2 true) = [mkKline 1 2 true] ∧
    add_kline 3 [mkKline 1 1 true] (mkKline 2 1 true) =
      [mkKline 1 1 true, mkKline 2 1 true] ∧
    add_kline 2 [mkKline 1 1 true, mkKline 2 1 true] (mkKline 3 1 true) =
      [mkKline 2 1 true, mkKline 3 1 true] := by
  refine ⟨?_, ?_, ?_⟩
  · have h := (C2_upsert_correctness 3 [mkKline 1 1 true] (mkKline 1 2 true)).1
    simpa using h (mkKline 1 1 true) (by decide) (by decide)
  · have h := (C2_upsert_correctness 3 [mkKline 1 1 true] (mkKline 2 1 true)).2.1
    refine Eq.trans (h ?_ (by decide)) (by simp)
    intro last hl
    simp at hl
    subst hl
    decide
  · have h := (C2_upsert_correctness 2 [mkKline 1 1 true, mkKline 2 1 true]
      (mkKline 3 1 true)).2.2.1
    refine Eq.trans (h ?_ (by decide) (by decide)) (by simp)
    intro last hl
    simp at hl
    subst hl
    decide

theorem lookup_initCache_eq_none {symbols timeframes : List String} {sym : String}
    (h : sym ∉ symbols) : List.lookup sym (initCache symbols timeframes) = none := by
  induction symbols with
  | nil => rfl
  | cons a rest ih =>
      simp only [List.mem_cons, not_or] at h
      have hba : (sym == a) = false := by
        simpa using h.1
      simp only [initCache, List.map_cons, List.lookup, hba]
      exact ih h.2

theorem lookupSeries_initCache (symbols timeframes : List String) (sym tf : String)
    (h : sym ∉ symbols) : lookupSeries (initCache symbols timeframes) sym tf = none := by
  simp [lookupSeries, lookup_initCache_eq_none h]

/-- Claim C5: get_klines returns the most recent limit entries in stored
(oldest to newest) order, all entries when limit is absent or zero, and an
empty list rather than an error when the (symbol, timeframe) series does
not exist, in particular for a symbol absent from the initialized cache. -/
theorem C5_get_klines_reads (c : Cache) (symbol timeframe : String) (limit : Option Int) :
    (lookupSeries c symbol timeframe = none →
      get_klines c symbol timeframe limit = []) ∧
    (∀ s, lookupSeries c symbol timeframe = some s →
      get_klines c symbol timeframe none = s ∧
      get_klines c symbol timeframe (some 0) = s ∧
      ∀ l : Int, 0 < l →
        get_klines c symbol timeframe (some l) = s.drop (s.length - l.toNat)) ∧
    (∀ symbols timeframes : List String, "UNKNOWN" ∉ symbols →
      get_klines (initCache symbols timeframes) "UNKNOWN" "1h" limit = []) := by
  refine ⟨?_, ?_, ?_⟩
  · intro h
    cases limit with
    | none => simp [get_klines, h]
    | some l => simp [get_klines, h]
  · intro s hs
    refine ⟨by simp [get_klines, hs], by simp [get_klines, hs], ?_⟩
    intro l hl
    simp [get_klines, hs, ne_of_gt hl, hl]
  · intro symbols timeframes h
    have h0 := lookupSeries_initCache symbols timeframes "UNKNOWN" "1h" h
    cases limit with
    | none => simp [get_klines, h0]
    | some l => simp [get_klines, h0]

/-- Witness for claim C5: a concrete cache read with a positive limit and a
read of an unknown symbol on the initialized cache. -/
theorem C5_get_klines_reads_witness :
    get_klines [("BTCUSDT", [("1h", [mkKline 1 1 true, mkKline 2 1 true])])]
      "BTCUSDT" "1h" (some 1) = [mkKline 2 1 true] ∧
    get_klines (initCache ["BTCUSDT"] ["1h"]) "UNKNOWN" "1h" (some 5) = [] := by
  have h := C5_get_klines_reads
    [("BTCUSDT", [("1h", [mkKline 1 1 true, mkKline 2 1 true])])] "BTCUSDT" "1h" (some 5)
  constructor
  · have h2 := (h.2.1 [mkKline 1 1 true, mkKline 2 1 true] (by decide)).2.2 1 (by decide)
    rw [h2]
    decide
  · exact h.2.2 ["BTCUSDT"] ["1h"] (by decide)

/-- Claim C9: on an existing series, a limit of none, zero or any negative
integer returns the entire series unchanged; only a strictly positive limit
truncates to the most recent entries. -/
theorem C9_nonpositive_limit_reads_all (c : Cache) (symbol timeframe : String)
    (s : List Kline) (hs : lookupSeries c symbol timeframe = some s) :
    get_klines c symbol timeframe none = s ∧
    get_klines c symbol timeframe (some 0) = s ∧
    (∀ l : Int, l < 0 → get_klines c symbol timeframe (some l) = s) ∧
    (∀ l : Int, 0 < l → get_klines c symbol timeframe (some l) =
      s.drop (s.length - l.toNat)) := by
  refine ⟨by simp [get_klines, hs], by simp [get_klines, hs], ?_, ?_⟩
  · intro l hl
    have hnot : ¬ (l ≠ 0 ∧ 0 < l) := by
      rintro ⟨-, h2⟩
      omega
    simp [get_klines, hs, hnot]
  · intro l hl
    simp [get_klines, hs, ne_of_gt hl, hl]

/-- Witness for claim C9: a negative limit on a concrete two-entry series
returns both entries. -/
theorem C9_nonpositive_limit_reads_all_witness :
    get_klines [("BTCUSDT", [("1h", [mkKline 1 1 true, mkKline 2 1 true])])]
      "BTCUSDT" "1h" (some (-7)) = [mkKline 1 1 true, mkKline 2 1 true] :=
  (C9_nonpositive_limit_reads_all
    [("BTCUSDT", [("1h", [mkKline 1 1 true, mkKline 2 1 true])])] "BTCUSDT" "1h"
    [mkKline 1 1 true, mkKline 2 1 true] (by decide)).2.2.1 (-7) (by decide)

/-- Per-timeframe input of _generate_overall_signals
(backend/agent/tools/analysis_tools.py lines 16-37): an error marker (the
Python dict key "error") plus the optional ema20 and ema50 values, where
Python None is none. -/
structure TFData where
  hasError : Bool
  ema20 : Option ℚ
  ema50 : Option ℚ
deriving DecidableEq

/-- Python truthiness of data.get(key) for an optional numeric value: false
for None and for the number 0. -/
def truthy : Option ℚ → Bool
  | none => false
  | some v => decide (v ≠ 0)

/-- One step of the EMA counting loop (analysis_tools.py lines 24-31): skip
erroring timeframes, and count a timeframe only when both ema fields pass
the Python truthiness test; the first accumulator component counts
timeframes with ema20 > ema50. -/
def emaStep (acc : ℕ × ℕ) (d : TFData) : ℕ × ℕ :=
  if d.hasError then acc
  else if truthy d.ema20 && truthy d.ema50 then
    ((if d.ema50.getD 0 < d.ema20.getD 0 then acc.1 + 1 else acc.1), acc.2 + 1)
  else acc

/-- Counting pass of _generate_overall_signals: (ema20_above_ema50_count,
total_timeframes). -/
def emaCounts (tfs : List TFData) : ℕ × ℕ :=
  tfs.foldl emaStep (0, 0)

/-- Embedding of the trend label conditional (analysis_tools.py line 36).
The source strings translate as 上涨 = up, 下跌 = down, 震荡 = choppy. -/
def trendLabel (c : ℚ) : String :=
  if 3/5 < c then "上涨" else if c < 2/5 then "下跌" else "震荡"

/-- Trend part of _generate_overall_signals (lines 33-37): no trend fields
when no timeframe was counted, otherwise the direction label and the trend
consistency ratio. -/
def trendSignals (tfs : List TFData) : Option (String × ℚ) :=
  let ac := emaCounts tfs
  if 0 < ac.2 then
    some (trendLabel ((ac.1 : ℚ) / (ac.2 : ℚ)), (ac.1 : ℚ) / (ac.2 : ℚ))
  else none

/-- Predicate matching the code's counting condition: not erroring and both
ema values present and nonzero. -/
def emaCounted (d : TFData) : Bool :=
  !d.hasError && truthy d.ema20 && truthy d.ema50

/-- Counted timeframes whose ema20 exceeds ema50. -/
def emaCountedAbove (d : TFData) : Bool :=
  emaCounted d && decide (d.ema50.getD 0 < d.ema20.getD 0)

/-- Written from the claim wording, for comparison with the code: the number
of timeframes with ema20 > ema50 among those where both values are present,
and the number of timeframes where both values are present (present meaning
not None, with no nonzero requirement). -/
def claimPresentCounts (tfs : List TFData) : ℕ × ℕ :=
  ((tfs.filter (fun d =>
      !d.hasError && d.ema20.isSome && d.ema50.isSome &&
        decide (d.ema50.getD 0 < d.ema20.getD 0))).length,
   (tfs.filter (fun d => !d.hasError && d.ema20.isSome && d.ema50.isSome)).length)

theorem emaCounts_go (tfs : List TFData) :
    ∀ a t : ℕ, tfs.foldl emaStep (a, t) =
      (a + (tfs.filter emaCountedAbove).length, t + (tfs.filter emaCounted).length) := by
  induction tfs with
  | nil => simp
  | cons d rest ih =>
      intro a t
      simp only [List.foldl_cons]
      by_cases h1 : d.hasError
      · have hc : emaCounted d = false := by simp [emaCounted, h1]
        have hca : emaCountedAbove d = false := by simp [emaCountedAbove, hc]
        simp [emaStep, h1, List.filter_cons, hc, hca, ih]
      · by_cases h2 : truthy d.ema20 && truthy d.ema50
        · have hc : emaCounted d = true := by
            simp only [emaCounted, h1]
            simpa using h2
          by_cases h3 : d.ema50.getD 0 < d.ema20.getD 0
          · have hca : emaCountedAbove d = true := by
              simp [emaCountedAbove, hc, h3]
            simp only [emaStep, h1, if_false, h2, if_true, h3, Bool.false_eq_true,
              ite_true, ite_false]
            rw [ih]
            simp [List.filter_cons, hc, hca]
            omega
          · have hca : emaCountedAbove d = false := by
              simp [emaCountedAbove, hc, h3]
            simp only [emaStep, h1, h2, h3, Bool.false_eq_true, ite_true, ite_false]
            rw [ih]
            simp [List.filter_cons, hc, hca]
            omega
        · have hc : emaCounted d = false := by
            simp only [emaCounted, h1]
            simpa using h2
          have hca : emaCountedAbove d = false := by
            simp [emaCountedAbove, hc]
          simp only [emaStep, h1, h2, Bool.false_eq_true, ite_true, ite_false]
          rw [ih]
          simp [List.filter_cons, hc, hca]

theorem emaCounts_eq (tfs : List TFData) :
    emaCounts tfs =
      ((tfs.filter emaCountedAbove).length, (tfs.filter emaCounted).length) := by
  simpa using emaCounts_go tfs 0 0

theorem trendLabel_cases (c : ℚ) :
    (trendLabel c = "上涨" ↔ 3/5 < c) ∧
    (trendLabel c = "下跌" ↔ c < 2/5) ∧
    (trendLabel c = "震荡" ↔ 2/5 ≤ c ∧ c ≤ 3/5) := by
  unfold trendLabel
  rcases lt_or_le (3/5 : ℚ) c with h1 | h1
  · rw [if_pos h1]
    refine ⟨iff_of_true rfl h1, iff_of_false (by decide) (by intro h2; linarith), ?_⟩
    exact iff_of_false (by decide) (by rintro ⟨-, h2⟩; linarith)
  · rw [if_neg (not_lt.mpr h1)]
    rcases lt_or_le c (2/5 : ℚ) with h2 | h2
    · rw [if_pos h2]
      refine ⟨iff_of_false (by decide) (not_lt.mpr h1), iff_of_true rfl h2, ?_⟩
      exact iff_of_false (by decide) (by rintro ⟨h3, -⟩; linarith)
    · rw [if_neg (not_lt.mpr h2)]
      exact ⟨iff_of_false (by decide) (not_lt.mpr h1),
        iff_of_false (by decide) (not_lt.mpr h2), iff_of_true rfl ⟨h2, h1⟩⟩

/-- Claim C4, counterexample: a timeframe whose ema20 is present but equal
to 0 is excluded from the denominator by the Python truthiness test
"data.get(ema20) and data.get(ema50)", so with timeframes
(ema20=0, ema50=1) and (ema20=2, ema50=1) the code reports
trend_consistency 1 and direction up, while the claimed formula (count
among timeframes where both are present) gives 1/2. Moreover the claimed
one-of-three example is wrong on its own terms: consistency 1/3 is below
2/5, so the code labels it 下跌 (down), not choppy. -/
theorem C4_counterexample :
    (trendSignals [⟨false, some 0, some 1⟩, ⟨false, some 2, some 1⟩] = some ("上涨", 1) ∧
      claimPresentCounts [⟨false, some 0, some 1⟩, ⟨false, some 2, some 1⟩] = (1, 2) ∧
      ((1 : ℚ) / 2 ≠ 1)) ∧
    (trendSignals [⟨false, some 2, some 1⟩, ⟨false, some 1, some 2⟩,
        ⟨false, some 1, some 2⟩] = some ("下跌", 1/3) ∧
      "下跌" ≠ "震荡") := by
  refine ⟨⟨?_, by decide, by norm_num⟩, ?_, by decide⟩
  · norm_num [trendSignals, emaCounts_eq, emaCounted, emaCountedAbove, truthy, trendLabel,
      List.filter]
  · norm_num [trendSignals, emaCounts_eq, emaCounted, emaCountedAbove, truthy, trendLabel,
      List.filter]

/-- Claim C4, amended: trend_consistency equals the number of timeframes
with ema20 > ema50 divided by the number of timeframes where both ema20 and
ema50 are present AND nonzero (Python truthiness); trend_direction is up
(上涨) exactly when the ratio exceeds 3/5, down (下跌) exactly when below
2/5, and choppy (震荡) otherwise, including at exactly 3/5 and exactly 2/5;
three of three contributing timeframes above give up with consistency 1,
one of three gives down (not choppy) with consistency 1/3. -/
theorem C4_trend_consensus (tfs : List TFData) (c : ℚ) :
    (emaCounts tfs).1 = (tfs.filter emaCountedAbove).length ∧
    (emaCounts tfs).2 = (tfs.filter emaCounted).length ∧
    (0 < (emaCounts tfs).2 → trendSignals tfs =
      some (trendLabel (((emaCounts tfs).1 : ℚ) / ((emaCounts tfs).2 : ℚ)),
        ((emaCounts tfs).1 : ℚ) / ((emaCounts tfs).2 : ℚ))) ∧
    ((emaCounts tfs).2 = 0 → trendSignals tfs = none) ∧
    (trendLabel c = "上涨" ↔ 3/5 < c) ∧
    (trendLabel c = "下跌" ↔ c < 2/5) ∧
    (trendLabel c = "震荡" ↔ 2/5 ≤ c ∧ c ≤ 3/5) ∧
    trendSignals [⟨false, some 2, some 1⟩, ⟨false, some 2, some 1⟩,
      ⟨false, some 2, some 1⟩] = some ("上涨", 1) ∧
    trendSignals [⟨false, some 2, some 1⟩, ⟨false, some 1, some 2⟩,
      ⟨false, some 1, some 2⟩] = some ("下跌", 1/3) ∧
    trendSignals [⟨false, some 2, some 1⟩, ⟨false, some 2, some 1⟩,
      ⟨false, some 2, some 1⟩, ⟨false, some 1, some 2⟩,
      ⟨false, some 1, some 2⟩] = some ("震荡", 3/5) ∧
    trendSignals [⟨false, some 2, some 1⟩, ⟨false, some 2, some 1⟩,
      ⟨false, some 1, some 2⟩, ⟨false, some 1, some 2⟩,
      ⟨false, some 1, some 2⟩] = some ("震荡", 2/5) := by
  refine ⟨by simp [emaCounts_eq], by simp [emaCounts_eq], ?_, ?_,
    (trendLabel_cases c).1, (trendLabel_cases c).2.1, (trendLabel_cases c).2.2,
    ?_, ?_, ?_, ?_⟩
  · intro h
    simp [trendSignals, h]
  · intro h
    simp [trendSignals, h]
  · norm_num [trendSignals, emaCounts_eq, emaCounted, emaCountedAbove, truthy, trendLabel,
      List.filter]
  · norm_num [trendSignals, emaCounts_eq, emaCounted, emaCountedAbove, truthy, trendLabel,
      List.filter]
  · norm_num [trendSignals, emaCounts_eq, emaCounted, emaCountedAbove, truthy, trendLabel,
      List.filter]
  · norm_num [trendSignals, emaCounts_eq, emaCounted, emaCountedAbove, truthy, trendLabel,
      List.filter]

/-- Witness for claim C4: the trend fields on a single contributing
timeframe, with the hypothesis of a positive denominator discharged
concretely. -/
theorem C4_trend_consensus_witness :
    trendSignals [⟨false, some 2, some 1⟩] =
      some (trendLabel (((emaCounts [⟨false, some 2, some 1⟩]).1 : ℚ) /
          ((emaCounts [⟨false, some 2, some 1⟩]).2 : ℚ)),
        ((emaCounts [⟨false, some 2, some 1⟩]).1 : ℚ) /
          ((emaCounts [⟨false, some 2, some 1⟩]).2 : ℚ)) :=
  (C4_trend_consensus [⟨false, some 2, some 1⟩] 1).2.2.1 (by decide)

/-- Modelled from the spec: talib.EMA is an external library function; per
the spec it is the standard exponential moving average, seeded with the
simple moving average of the first period values and then folded over the
remaining values with smoothing factor 2/(period+1). Only the last output
value is consumed by the tool. -/
def talibEMA (period : ℕ) (closes : List ℚ) : ℚ :=
  let seed := (closes.take period).sum / (period : ℚ)
  (closes.drop period).foldl (fun e c => e + (c - e) * (2 / ((period : ℚ) + 1))) seed

/-- Embedding of the ema20 field assignment (analysis_tools.py line 176):
the field is present only when at least 20 closes are available, and is
then the last talib.EMA(closes, 20) value. -/
def ema20Field (closes : List ℚ) : Option ℚ :=
  if 20 ≤ closes.length then some (talibEMA 20 closes) else none

/-- Claim C7: with 19 closes the ema20 field is absent (None, not an error
and not zero); with exactly 20 closes it is present and equals the standard
20-period EMA of those closes, which for exactly 20 inputs is their simple
moving average (the EMA seed), i.e. their sum divided by 20. -/
theorem C7_ema20_lookback :
    (∀ closes : List ℚ, closes.length = 19 → ema20Field closes = none) ∧
    (∀ closes : List ℚ, closes.length = 20 →
      ema20Field closes = some (closes.sum / 20)) := by
  constructor
  · intro closes h
    simp [ema20Field, h]
  · intro closes h
    have h1 : closes.take 20 = closes := List.take_of_length_le (by omega)
    have h2 : closes.drop 20 = [] := List.drop_eq_nil_of_le (by omega)
    simp [ema20Field, h, talibEMA, h1, h2]

/-- Witness for claim C7 on 19 and on 20 constant closes. -/
theorem C7_ema20_lookback_witness :
    ema20Field (List.replicate 19 1) = none ∧
    ema20Field (List.replicate 20 1) = some ((List.replicate 20 (1 : ℚ)).sum / 20) :=
  ⟨C7_ema20_lookback.1 _ (by simp), C7_ema20_lookback.2 _ (by simp)⟩

/-- Output record for the division-guarded fields of one timeframe of
tech_analysis_tool (analysis_tools.py lines 162-253); a field is none when
the source leaves the corresponding dict key unset. -/
structure TimeframeResult where
  current_price : ℚ
  price_change : ℚ
  price_change_percent : ℚ
  bb_position : Option ℚ
  vwap : Option ℚ
  vwap_ratio : Option ℚ
  resistance_level : Option ℚ
  support_level : Option ℚ
  distance_to_resistance_pct : Option ℚ
  distance_to_support_pct : Option ℚ
deriving DecidableEq

/-- Last element of a numpy-style array, mirroring arr[-1]; the tool only
reaches this code with a non-empty array, 0 is the junk value for []. -/
def lastD (l : List ℚ) : ℚ := l.getLastD 0

/-- Second to last element, mirroring arr[-2]. -/
def last2D (l : List ℚ) : ℚ := l.dropLast.getLastD 0

/-- Maximum of a non-empty list, mirroring np.max. -/
def listMax : List ℚ → ℚ
  | [] => 0
  | a :: t => t.foldl max a

/-- Minimum of a non-empty list, mirroring np.min. -/
def listMin : List ℚ → ℚ
  | [] => 0
  | a :: t => t.foldl min a

/-- Embedding of the division-guarded computations of tech_analysis_tool for
one timeframe (analysis_tools.py lines 162-253). The Bollinger band values
come from talib.BBANDS, an external library, so their last array entries
are taken as the parameters bbU and bbL; the Python truthiness tests on
them become nonzero tests. All other fields are computed from the kline
arrays exactly as in the source. -/
def computeTF (closes highs lows volumes : List ℚ) (bbU bbL : ℚ) : TimeframeResult :=
  let current_price := lastD closes
  let price_change := if 2 ≤ closes.length then current_price - last2D closes else 0
  let price_change_percent :=
    if 2 ≤ closes.length ∧ 0 < last2D closes then price_change / last2D closes * 100 else 0
  let bb_position :=
    if 20 ≤ closes.length ∧ bbU ≠ 0 ∧ bbL ≠ 0 ∧ bbU ≠ bbL then
      some ((current_price - bbL) / (bbU - bbL))
    else none
  let lookback := min 50 closes.length
  let vwap_data := closes.drop (closes.length - lookback)
  let volume_data := volumes.drop (volumes.length - lookback)
  let vwap :=
    if 0 < closes.length ∧ 0 < volume_data.sum then
      some ((List.zipWith (fun a b => a * b) vwap_data volume_data).sum / volume_data.sum)
    else none
  let vwap_ratio :=
    match vwap with
    | some v => some (if 0 < v then (current_price - v) / v * 100 else 0)
    | none => none
  let srGuard := 20 ≤ highs.length ∧ 20 ≤ lows.length
  let res := if srGuard then some (listMax (highs.drop (highs.length - 20))) else none
  let sup := if srGuard then some (listMin (lows.drop (lows.length - 20))) else none
  let dtr :=
    match res, sup with
    | some r, some s => if s < r then some ((r - current_price) / (r - s) * 100) else none
    | _, _ => none
  let dts :=
    match res, sup with
    | some r, some s => if s < r then some ((current_price - s) / (r - s) * 100) else none
    | _, _ => none
  { current_price := current_price, price_change := price_change,
    price_change_percent := price_change_percent, bb_position := bb_position,
    vwap := vwap, vwap_ratio := vwap_ratio, resistance_level := res,
    support_level := sup, distance_to_resistance_pct := dtr,
    distance_to_support_pct := dts }

/-- Claim C10, counterexample: with closes [0, 5] the previous close is 0,
which is not positive, yet price_change is 5 and not 0; only
price_change_percent is guarded by the sign of the previous close, while
price_change is guarded by the length check alone. -/
theorem C10_counterexample :
    (computeTF [0, 5] [0, 5] [0, 5] [1, 1] 2 1).price_change = 5 ∧
    (computeTF [0, 5] [0, 5] [0, 5] [1, 1] 2 1).price_change_percent = 0 ∧
    last2D [0, 5] = 0 ∧ ((5 : ℚ) ≠ 0) := by
  norm_num [computeTF, lastD, last2D, List.getLastD]

/-- Claim C10, amended: price_change is 0 when there are fewer than 2
closes (regardless of the previous close's sign), price_change_percent is 0
when there are fewer than 2 closes or the previous close is not positive;
bb_position is produced exactly when there are at least 20 closes and the
band parameters are nonzero (Python truthiness) and unequal; vwap and
vwap_ratio are produced exactly when the summed volume over the lookback
window is positive; the distance-to-support/resistance percentages are
produced exactly when resistance exceeds support — so every division in
the embedded fields has a nonzero denominator. -/
theorem C10_guarded_divisions (closes highs lows volumes : List ℚ) (bbU bbL : ℚ) :
    (closes.length < 2 → (computeTF closes highs lows volumes bbU bbL).price_change = 0) ∧
    (closes.length < 2 ∨ last2D closes ≤ 0 →
      (computeTF closes highs lows volumes bbU bbL).price_change_percent = 0) ∧
    ((computeTF closes highs lows volumes bbU bbL).bb_position.isSome ↔
      20 ≤ closes.length ∧ bbU ≠ 0 ∧ bbL ≠ 0 ∧ bbU ≠ bbL) ∧
    ((computeTF closes highs lows volumes bbU bbL).vwap.isSome ↔
      0 < closes.length ∧
        0 < (volumes.drop (volumes.length - min 50 closes.length)).sum) ∧
    ((computeTF closes highs lows volumes bbU bbL).vwap_ratio.isSome ↔
      (computeTF closes highs lows volumes bbU bbL).vwap.isSome) ∧
    ((computeTF closes highs lows volumes bbU bbL).distance_to_resistance_pct.isSome ↔
      20 ≤ highs.length ∧ 20 ≤ lows.length ∧
        listMin (lows.drop (lows.length - 20)) < listMax (highs.drop (highs.length - 20))) ∧
    ((computeTF closes highs lows volumes bbU bbL).distance_to_support_pct.isSome ↔
      (computeTF closes highs lows volumes bbU bbL).distance_to_resistance_pct.isSome) := by
  refine ⟨?_, ?_, ?_, ?_, ?_, ?_, ?_⟩
  · intro h
    have hn : ¬ 2 ≤ closes.length := by omega
    simp [computeTF, hn]
  · intro h
    have hn : ¬ (2 ≤ closes.length ∧ 0 < last2D closes) := by
      rcases h with h | h
      · rintro ⟨h2, -⟩
        omega
      · rintro ⟨-, h2⟩
        linarith
    simp [computeTF, hn]
  · by_cases hc : 20 ≤ closes.length ∧ bbU ≠ 0 ∧ bbL ≠ 0 ∧ bbU ≠ bbL
    · simp [computeTF, hc]
    · simp [computeTF, hc]
  · by_cases hc : 0 < closes.length ∧
        0 < (volumes.drop (volumes.length - min 50 closes.length)).sum
    · simp [computeTF, hc]
    · simp [computeTF, hc]
  · by_cases hc : 0 < closes.length ∧
        0 < (volumes.drop (volumes.length - min 50 closes.length)).sum
    · simp [computeTF, hc]
    · simp [computeTF, hc]
  · by_cases hg : 20 ≤ highs.length ∧ 20 ≤ lows.length
    · by_cases hlt : listMin (lows.drop (lows.length - 20)) <
          listMax (highs.drop (highs.length - 20))
      · simp [computeTF, hg, hlt]
      · simp [computeTF, hg, hlt]
    · simp only [computeTF, hg, if_false, ite_false]
      simp [hg]
      intro h1 h2
      exact absurd ⟨h1, h2⟩ hg
  · by_cases hg : 20 ≤ highs.length ∧ 20 ≤ lows.length
    · by_cases hlt : listMin (lows.drop (lows.length - 20)) <
          listMax (highs.drop (highs.length - 20))
      · simp [computeTF, hg, hlt]
      · simp [computeTF, hg, hlt]
    · simp [computeTF, hg]

/-- Witness for claim C10: on a single close both change fields are 0. -/
theorem C10_guarded_divisions_witness :
    (computeTF [5] [5] [5] [1] 2 1).price_change = 0 ∧
    (computeTF [5] [5] [5] [1] 2 1).price_change_percent = 0 :=
  ⟨(C10_guarded_divisions [5] [5] [5] [1] 2 1).1 (by norm_num),
   (C10_guarded_divisions [5] [5] [5] [1] 2 1).2.1 (Or.inl (by norm_num))⟩

/-- Outcome of one registered message handler when invoked: it either
returns normally or raises; the source catches the exception and logs it
(websocket_client.py lines 204-208). -/
inductive ListenerOutcome where
  | ok
  | raises
deriving DecidableEq

/-- Shape of one received frame as classified by _handle_message
(websocket_client.py lines 153-173): malformed JSON; a combined-stream
kline envelope with a well-formed payload; a stream envelope whose inner
payload extraction raises; a subscription acknowledgment (a result key);
an error envelope; or a valid JSON object matching none of the branches. -/
inductive Frame where
  | badJson
  | kline (k : Kline)
  | klineBad
  | ack
  | errorMsg
  | unknown
deriving DecidableEq

/-- Observable effects of processing frames: a cache upsert, a listener
invocation (with its registration index), an error log, a debug log. -/
inductive Effect where
  | upsert (k : Kline)
  | listenerCall (i : ℕ) (k : Kline)
  | logError
  | logDebug
deriving DecidableEq

/-- Embedding of the handler loop of _handle_kline_data (lines 204-208):
each handler is invoked in registration order; a raising handler is caught
and logged, and the loop continues with the next handler. -/
def runListeners (k : Kline) : ℕ → List ListenerOutcome → List Effect
  | _, [] => []
  | i, o :: rest =>
      Effect.listenerCall i k ::
        ((if o = ListenerOutcome.raises then [Effect.logError] else []) ++
          runListeners k (i + 1) rest)

/-- Embedding of _handle_kline_data (lines 175-215) for a well-formed
payload: one cache upsert, then every listener in order, then a debug log
when the candle is final. -/
def handleKlineData (listeners : List ListenerOutcome) (k : Kline) : List Effect :=
  Effect.upsert k ::
    (runListeners k 0 listeners ++ if k.is_final then [Effect.logDebug] else [])

/-- Embedding of _handle_message (lines 153-173): malformed JSON and a
raising payload extraction are caught and logged; an acknowledgment is
logged at debug level; an error envelope is logged; an unrecognized
envelope matches none of the branches and produces nothing at all. -/
def handleMessage (listeners : List ListenerOutcome) : Frame → List Effect
  | Frame.badJson => [Effect.logError]
  | Frame.kline k => handleKlineData listeners k
  | Frame.klineBad => [Effect.logError]
  | Frame.ack => [Effect.logDebug]
  | Frame.errorMsg => [Effect.logError]
  | Frame.unknown => []

/-- One receive-loop event: a frame, a closed connection, or another
receive exception; the two exception events break the loop
(websocket_client.py lines 142-147). -/
inductive RecvEvent where
  | frame (f : Frame)
  | connClosed
  | recvError
deriving DecidableEq

/-- Embedding of the body of start_message_loop (lines 127-147): frames are
processed one after another; a closed connection or a receive exception is
logged and breaks the loop. -/
def messageLoop (listeners : List ListenerOutcome) : List RecvEvent → List Effect
  | [] => []
  | RecvEvent.frame f :: rest => handleMessage listeners f ++ messageLoop listeners rest
  | RecvEvent.connClosed :: _ => [Effect.logError]
  | RecvEvent.recvError :: _ => [Effect.logError]

/-- Index extractor for listener-invocation effects. -/
def listenerIdx : Effect → Option ℕ
  | Effect.listenerCall i _ => some i
  | _ => none

/-- Upsert test on effects. -/
def isUpsert : Effect → Bool
  | Effect.upsert _ => true
  | _ => false

theorem runListeners_filterMap (k : Kline) (L : List ListenerOutcome) :
    ∀ i : ℕ, (runListeners k i L).filterMap listenerIdx = List.range' i L.length := by
  induction L with
  | nil => intro i; simp [runListeners]
  | cons o rest ih =>
      intro i
      by_cases h : o = ListenerOutcome.raises
      · simp [runListeners, h, listenerIdx, ih, List.range'_succ]
      · simp [runListeners, h, listenerIdx, ih, List.range'_succ]

theorem runListeners_no_upsert (k : Kline) (L : List ListenerOutcome) :
    ∀ i : ℕ, (runListeners k i L).countP isUpsert = 0 := by
  induction L with
  | nil => intro i; simp [runListeners]
  | cons o rest ih =>
      intro i
      by_cases h : o = ListenerOutcome.raises
      · simp [runListeners, h, isUpsert, List.countP_cons, ih]
      · simp [runListeners, h, isUpsert, List.countP_cons, ih]

/-- Claim C6, counterexample: a valid JSON frame matching none of the
dispatch branches is skipped silently, with no logging effect at all,
contradicting the part of the claim that says an unrecognized envelope
shape is logged. -/
theorem C6_counterexample :
    handleMessage [] Frame.unknown = [] ∧
    Effect.logError ∉ handleMessage [] Frame.unknown := by
  refine ⟨rfl, ?_⟩
  simp [handleMessage]

/-- Claim C6 (amended): the receive loop processes every frame of a
frame-only event run — neither malformed JSON (logged) nor an unrecognized
envelope (skipped silently, not logged) terminates it; a well-formed kline
frame produces exactly one cache upsert and invokes every registered
listener exactly once in registration order, a raising listener being
caught so that the remaining listeners still run. -/
theorem C6_receive_loop_resilience (listeners : List ListenerOutcome)
    (frames : List Frame) (k : Kline) :
    messageLoop listeners (frames.map RecvEvent.frame) =
      (frames.map (handleMessage listeners)).flatten ∧
    handleMessage listeners Frame.badJson = [Effect.logError] ∧
    (handleMessage listeners (Frame.kline k)).countP isUpsert = 1 ∧
    (handleMessage listeners (Frame.kline k)).filterMap listenerIdx =
      List.range listeners.length := by
  refine ⟨?_, rfl, ?_, ?_⟩
  · induction frames with
    | nil => rfl
    | cons f rest ih => simp [messageLoop, ih]
  · cases hf : k.is_final
    · simp [handleMessage, handleKlineData, List.countP_cons, isUpsert, hf,
        runListeners_no_upsert]
    · simp [handleMessage, handleKlineData, List.countP_cons, isUpsert, hf,
        runListeners_no_upsert]
  · cases hf : k.is_final
    · simp [handleMessage, handleKlineData, listenerIdx, hf,
        runListeners_filterMap, List.range_eq_range']
    · simp [handleMessage, handleKlineData, listenerIdx, hf,
        runListeners_filterMap, List.range_eq_range']

/-- State of BinanceWebSocketClient relevant to reconnection
(websocket_client.py lines 21-28), plus an instrumentation flag terminal
recording whether the max-attempts branch of _handle_reconnect (lines
225-229) — the would-be terminally-failed condition — was ever entered. -/
structure WSClient where
  is_connected : Bool
  is_reconnecting : Bool
  reconnect_count : ℕ
  max_reconnect_attempts : ℕ
  terminal : Bool
deriving DecidableEq

/-- Result of one _handle_reconnect invocation: halted means no message
loop was restarted (early return, max-attempts branch, exhausted outcome
run, or a failed connect); looping means connect succeeded and a new
message-loop task was started. The numeric field counts connect() calls
made during the invocation. -/
inductive ReconnectResult where
  | halted (st : WSClient) (calls : ℕ)
  | looping (st : WSClient) (calls : ℕ)
deriving DecidableEq

/-- Embedding of one invocation of _handle_reconnect (websocket_client.py
lines 217-247). The parameter outcome is the result of the connect() call
(none when the observed outcome run is exhausted): the reconnecting flag is
checked, the counter incremented, the max-attempts guard evaluated; then
disconnect() (lines 68-78) clears both flags, and connect() either succeeds
— resetting reconnect_count to 0 (line 57) and restarting the message loop
— or fails, after which nothing retries. -/
def handleReconnectOnce (st : WSClient) (outcome : Option Bool) : ReconnectResult :=
  if st.is_reconnecting then ReconnectResult.halted st 0
  else
    let st1 :=
      { st with is_reconnecting := true, reconnect_count := st.reconnect_count + 1 }
    if st1.max_reconnect_attempts < st1.reconnect_count then
      ReconnectResult.halted
        { st1 with is_connected := false, is_reconnecting := false, terminal := true } 0
    else
      let st2 := { st1 with is_connected := false, is_reconnecting := false }
      match outcome with
      | none => ReconnectResult.halted st2 0
      | some true =>
          ReconnectResult.looping { st2 with is_connected := true, reconnect_count := 0 } 1
      | some false => ReconnectResult.halted st2 1

/-- Reconnection process under the schedule of the claim's scenario, in
which every restarted message loop eventually exits again: each list entry
is the outcome of one connect() call; after a successful reconnect, the
next loop exit invokes _handle_reconnect again. Returns the final state
and the total number of connect() calls. -/
def reconnectLoop : List Bool → WSClient → WSClient × ℕ
  | [], st =>
      match handleReconnectOnce st none with
      | ReconnectResult.halted s n => (s, n)
      | ReconnectResult.looping s n => (s, n)
  | o :: rest, st =>
      match handleReconnectOnce st (some o) with
      | ReconnectResult.halted s n => (s, n)
      | ReconnectResult.looping s n =>
          ((reconnectLoop rest s).1, (reconnectLoop rest s).2 + n)

/-- Client state right after a successful connection with
max_reconnect_attempts = 3, the claim's scenario. -/
def initClient : WSClient :=
  { is_connected := true, is_reconnecting := false, reconnect_count := 0,
    max_reconnect_attempts := 3, terminal := false }

/-- Claim C3 (code bug): the claimed bounded-reconnection behavior is
unreachable in the code. From the state following any successful
connection (reconnect_count = 0), for every sequence of connect outcomes
the max-attempts branch is never entered and reconnect_count never exceeds
1, because a successful connect resets the counter to 0 and a failed
connect ends the process with no retry; concretely, with
max_reconnect_attempts = 3 and three available connect failures, exactly
one connect attempt is made and the client stops silently with
reconnect_count 1, instead of the claimed three attempts followed by a
terminally-failed state. -/
theorem C3_reconnect_dead_guard :
    (∀ outs : List Bool,
      (reconnectLoop outs initClient).1.terminal = false ∧
      (reconnectLoop outs initClient).1.reconnect_count ≤ 1) ∧
    reconnectLoop [false, false, false] initClient =
      ({ initClient with is_connected := false, reconnect_count := 1 }, 1) := by
  constructor
  · intro outs
    induction outs with
    | nil => decide
    | cons o rest ih =>
        cases o with
        | false => simp [reconnectLoop, handleReconnectOnce, initClient]
        | true => simpa [reconnectLoop, handleReconnectOnce, initClient] using ih
  · decide
